import Mathlib

/-!
Shallow embedding of `src/Backend/emotion_service.py` (the emotion detection
service): the multi-strategy detection pipeline `process_frame` and the
line-oriented request loop `main_loop`.

External collaborators (the YOLO classifier, the Haar-cascade face proposer,
base64/image decoding) are modelled as oracles: their outputs are inputs of
the embedded functions, shaped exactly as the Python code consumes them.
Machine floats (confidences, box coordinates) are modelled as rationals;
Python `int()` truncation of the non-negative clamped coordinates is
`Int.floor`.  Python's `round(x, 4)` is modelled by `round4` (exact rounding
to four decimal places on rationals); its half-even tie behaviour on binary
floats is immaterial to every claim, since no claim inspects a rounded digit.
-/

namespace EmotionService

/-- Claim-relevant enumeration: the eight emotion labels in the fixed order of
the source's `emotions` list.  The order is the contract with the classifier's
class indices. -/
inductive Emotion
  | Anger | Contempt | Disgust | Fear | Happy | Neutral | Sad | Surprise
deriving DecidableEq, Repr

/-- The Python access `emotions[class_id]` guarded by `0 <= class_id < len(emotions)`:
`some` of the label for indices 0..7, `none` outside the range. -/
def emotionOfIdx (i : ℤ) : Option Emotion :=
  if i = 0 then some .Anger
  else if i = 1 then some .Contempt
  else if i = 2 then some .Disgust
  else if i = 3 then some .Fear
  else if i = 4 then some .Happy
  else if i = 5 then some .Neutral
  else if i = 6 then some .Sad
  else if i = 7 then some .Surprise
  else none

/-- The source's `colors_bgr` table (B, G, R). -/
def colors_bgr : Emotion → ℕ × ℕ × ℕ
  | .Anger => (0, 0, 255)
  | .Contempt => (128, 0, 128)
  | .Disgust => (0, 128, 0)
  | .Fear => (0, 255, 255)
  | .Happy => (0, 255, 0)
  | .Neutral => (255, 255, 255)
  | .Sad => (255, 0, 0)
  | .Surprise => (0, 165, 255)

/-- One uppercase hex digit, as in Python's `%X` formatting. -/
def hexDigit (n : ℕ) : Char :=
  if n = 0 then '0' else if n = 1 then '1' else if n = 2 then '2'
  else if n = 3 then '3' else if n = 4 then '4' else if n = 5 then '5'
  else if n = 6 then '6' else if n = 7 then '7' else if n = 8 then '8'
  else if n = 9 then '9' else if n = 10 then 'A' else if n = 11 then 'B'
  else if n = 12 then 'C' else if n = 13 then 'D' else if n = 14 then 'E'
  else 'F'

/-- Two-digit uppercase hex, as in Python's `{:02X}` for a byte value. -/
def hex2 (n : ℕ) : String := String.mk [hexDigit ((n / 16) % 16), hexDigit (n % 16)]

/-- The source's `bgr_to_rgb_hex`: `f"#{r:02X}{g:02X}{b:02X}"` on a `(b, g, r)` tuple. -/
def bgr_to_rgb_hex (bgr : ℕ × ℕ × ℕ) : String :=
  "#" ++ hex2 bgr.2.2 ++ hex2 bgr.2.1 ++ hex2 bgr.1

/-- Python's `round(x, 4)` on the modelled rational confidences: rounding to
four decimal places, that is `⌊q·10⁴ + 1/2⌋ / 10⁴`, written on the
numerator/denominator so that it evaluates by integer arithmetic
(`⌊q·10⁴ + 1/2⌋ = (2·10⁴·num + den) div (2·den)` with floor division, since
`den > 0`).  Python rounds exact ties to even on binary floats; the
difference surfaces only at exact `5·10⁻⁵` ties and no claim inspects a
rounded digit. -/
def round4 (q : ℚ) : ℚ :=
  mkRat (Int.fdiv (q.num * 20000 + (q.den : ℤ)) (2 * (q.den : ℤ))) 10000

/-- Python's `str.strip()` on a line: drop whitespace from both ends. -/
def pyStrip (s : String) : String :=
  String.mk (((s.data.dropWhile Char.isWhitespace).reverse.dropWhile Char.isWhitespace).reverse)

/-- One classifier box as the Python code reads it.  `confCls` is the result of
`float(box.conf[0]), int(box.cls[0])`; `none` means that extraction raised (the
code then does `continue`).  `xyxy` is `box.xyxy[0].tolist()` when the `xyxy`
attribute exists (only the direct path reads it). -/
structure DBox where
  confCls : Option (ℚ × ℤ)
  xyxy : Option (ℚ × ℚ × ℚ × ℚ)
deriving DecidableEq, Repr

/-- The `result.probs` object of the classification-shaped classifier output:
`fails` when reading/converting `top1`/`top1conf` raises (swallowed by the
code's `except: pass`), otherwise the converted `top1` and `top1conf` values. -/
inductive ProbsData
  | fails
  | vals (top1 : Option ℤ) (top1conf : Option ℚ)
deriving DecidableEq, Repr

/-- One element of the list returned by a `model(...)` call: the `boxes`
attribute (detection shape) and the `probs` attribute (classification shape),
each possibly `None`. -/
structure YoloResult where
  boxes : Option (List DBox)
  probs : Option ProbsData
deriving DecidableEq, Repr

/-- Running state of the per-region best-result scan: `best_emotion`,
`best_conf`, `roi_box_count` of the source, plus whether the classification
path ever updated the best (the source's `debug_entry['classification']`
write). -/
structure BestState where
  best_emotion : Option Emotion
  best_conf : ℚ
  roi_box_count : ℕ
  usedCls : Bool
deriving DecidableEq, Repr

/-- Initial scan state: `best_emotion = None`, `best_conf = 0.0`, zero boxes. -/
def initBest : BestState := { best_emotion := none, best_conf := 0, roi_box_count := 0, usedCls := false }

/-- The detection-path body of the scan loop: count the box, and on a strictly
larger confidence update `best_conf` always but `best_emotion` only when the
class index is in range (the source updates them under separate guards). -/
def stepBox (s : BestState) (b : DBox) : BestState :=
  match b.confCls with
  | none => s
  | some (confidence, class_id) =>
    let s1 : BestState := { s with roi_box_count := s.roi_box_count + 1 }
    if s1.best_conf < confidence then
      { s1 with
        best_conf := confidence,
        best_emotion :=
          match emotionOfIdx class_id with
          | some e => some e
          | none => s1.best_emotion }
    else s1

/-- The classification-path body of the scan loop (`probs.top1`/`top1conf`):
updates only when the index is present and in range and the confidence
strictly exceeds the running best. -/
def stepProbs (s : BestState) (p : Option ProbsData) : BestState :=
  match p with
  | none => s
  | some .fails => s
  | some (.vals top1 top1conf) =>
    match top1 with
    | none => s
    | some cid =>
      match emotionOfIdx cid with
      | none => s
      | some e =>
        let confidence := top1conf.getD 0
        if s.best_conf < confidence then
          { s with best_conf := confidence, best_emotion := some e, usedCls := true }
        else s

/-- One `result` of the region-classification call: the detection path when
`boxes` is present and non-empty, otherwise the classification path. -/
def stepResult (s : BestState) (r : YoloResult) : BestState :=
  match r.boxes with
  | some bs => if bs.isEmpty then stepProbs s r.probs else bs.foldl stepBox s
  | none => stepProbs s r.probs

/-- The full per-region scan over the classifier's results (source lines 79-113). -/
def classifyResults (rs : List YoloResult) : BestState := rs.foldl stepResult initBest

/-- One `fr` of the whole-frame fallback call: boxes only, skipped when the
`boxes` attribute is `None` (the fallback path never reads `probs`). -/
def fallbackStepResult (s : BestState) (r : YoloResult) : BestState :=
  match r.boxes with
  | none => s
  | some bs => bs.foldl stepBox s

/-- The whole-frame fallback scan (source lines 126-140): same best-selection
rule as the detection path, over the fallback call's results. -/
def fallbackScan (rs : List YoloResult) : BestState := rs.foldl fallbackStepResult initBest

/-- One proposed face candidate bundled with the classifier oracle's answers
for it: `regionRes` is what `model(face_roi, conf=0.05)` returns (`none` when
the call raises), `fallbackRes` is what `model(frame_bgr, conf=0.05)` would
return if the fallback runs for this face. -/
structure FaceInput where
  rect : ℕ × ℕ × ℕ × ℕ
  regionRes : Option (List YoloResult)
  fallbackRes : Option (List YoloResult)
deriving DecidableEq, Repr

/-- One element of the response's `faces` array, with the field names of the
source's output dict; `source` is `some "direct"` exactly when the code adds
the `"source": "direct"` key. -/
structure FaceOut where
  x1 : ℤ
  y1 : ℤ
  x2 : ℤ
  y2 : ℤ
  emotion : Option Emotion
  confidence : ℚ
  color : String
  source : Option String
deriving DecidableEq, Repr

/-- The per-face `debug_entry` dict; optional keys are modelled as `Option`
or `Bool` (present-iff-true). -/
structure FaceDebug where
  faceRect : ℤ × ℤ × ℤ × ℤ
  roiBoxes : ℕ
  bestConf : ℚ
  fallbackFullBoxes : Option ℕ
  fallbackUsed : Bool
  fallbackBestConf : Option ℚ
  fallbackError : Bool
  classification : Bool
deriving DecidableEq, Repr

/-- An element of the `debug_entries` list: a per-face entry, or one of the
two direct-strategy records. -/
inductive DebugEntry
  | face (d : FaceDebug)
  | directDetections (n : ℕ)
  | directError
deriving DecidableEq, Repr

/-- What one iteration of the face loop produces when it does not `continue`:
the appended output dict, the appended debug entry, and whether the
classification path fired (for the stale `debug_entry['classification']`
write, see `setLastClassification`). -/
structure FaceStep where
  out : FaceOut
  dbg : FaceDebug
  usedCls : Bool
deriving DecidableEq, Repr

/-- The outcome of the per-face fallback block (source lines 119-148): the
final `best_emotion`/`best_conf` of the face and the fallback-related debug
keys. -/
structure FbOut where
  be : Option Emotion
  bc : ℚ
  fbBoxes : Option ℕ
  fbUsed : Bool
  fbBestConf : Option ℚ
  fbErr : Bool
deriving DecidableEq, Repr

/-- The per-face fallback block: when the region scan found no label, rerun on
the whole frame; adopt its labelled best only when its confidence strictly
exceeds the region scan's `best_conf`
(`if full_best_emotion and full_best_conf > best_conf`).  A raising fallback
call only records `fallbackError`. -/
def fallbackApply (s : BestState) (fallbackRes : Option (List YoloResult)) : FbOut :=
  match s.best_emotion with
  | some _ =>
    { be := s.best_emotion, bc := s.best_conf, fbBoxes := none,
      fbUsed := false, fbBestConf := none, fbErr := false }
  | none =>
    match fallbackRes with
    | none =>
      { be := none, bc := s.best_conf, fbBoxes := none,
        fbUsed := false, fbBestConf := none, fbErr := true }
    | some frs =>
      let fs := fallbackScan frs
      if fs.best_emotion.isSome ∧ s.best_conf < fs.best_conf then
        { be := fs.best_emotion, bc := fs.best_conf, fbBoxes := some fs.roi_box_count,
          fbUsed := true, fbBestConf := some (round4 fs.best_conf), fbErr := false }
      else
        { be := none, bc := s.best_conf, fbBoxes := some fs.roi_box_count,
          fbUsed := false, fbBestConf := none, fbErr := false }

/-- One iteration of the face loop (source lines 65-168): padding, clamping,
the minimum-size check, the region scan, the whole-frame fallback, and the
bounds-clamped output dict.  `none` models `continue` (region too small, or
the region classifier call raised). -/
def processFace (wf hf : ℕ) (fi : FaceInput) : Option FaceStep :=
  let W : ℤ := (wf : ℤ)
  let H : ℤ := (hf : ℤ)
  match fi.rect with
  | (x, y, w, h) =>
    let x1 : ℤ := max 0 ((x : ℤ) - 20)
    let y1 : ℤ := max 0 ((y : ℤ) - 20)
    let x2 : ℤ := min W ((x : ℤ) + (w : ℤ) + 20)
    let y2 : ℤ := min H ((y : ℤ) + (h : ℤ) + 20)
    let roiH : ℤ := max 0 (y2 - y1)
    let roiW : ℤ := max 0 (x2 - x1)
    if roiH < 50 ∨ roiW < 50 then none
    else
      match fi.regionRes with
      | none => none
      | some results =>
        let s := classifyResults results
        let fb := fallbackApply s fi.fallbackRes
        let color :=
          match fb.be with
          | some e => bgr_to_rgb_hex (colors_bgr e)
          | none => "#FFFFFF"
        let x1c := max 0 (min x1 (W - 1))
        let y1c := max 0 (min y1 (H - 1))
        let x2c := max 0 (min x2 W)
        let y2c := max 0 (min y2 H)
        some
          { out :=
              { x1 := x1c, y1 := y1c, x2 := x2c, y2 := y2c,
                emotion := fb.be, confidence := round4 fb.bc, color := color, source := none },
            dbg :=
              { faceRect := (x1, y1, x2, y2), roiBoxes := s.roi_box_count,
                bestConf := round4 s.best_conf, fallbackFullBoxes := fb.fbBoxes,
                fallbackUsed := fb.fbUsed, fallbackBestConf := fb.fbBestConf,
                fallbackError := fb.fbErr, classification := false },
            usedCls := s.usedCls }

/-- Appends ordered key counts, matching Python dict semantics (`insertion
order`, `get(k, 0) + 1`). -/
def bumpCount (cs : List (Emotion × ℕ)) (e : Emotion) : List (Emotion × ℕ) :=
  match cs with
  | [] => [(e, 1)]
  | kv :: rest => if kv.1 = e then (kv.1, kv.2 + 1) :: rest else kv :: bumpCount rest e

/-- The loop state of the face loop: `results_output`, `emotion_counts`,
`debug_entries`. -/
structure LoopState where
  results_output : List FaceOut
  emotion_counts : List (Emotion × ℕ)
  debug_entries : List DebugEntry
deriving DecidableEq, Repr

/-- The source's `debug_entry['classification'] = True` executes while the
local `debug_entry` still refers to the previous face's (already appended)
dict, so it flags the most recently appended entry; on the first face
`locals().get('debug_entry', {})` yields a fresh dict that is discarded. -/
def setLastClassification : List DebugEntry → List DebugEntry
  | [] => []
  | [DebugEntry.face d] => [DebugEntry.face { d with classification := true }]
  | [e] => [e]
  | e :: rest => e :: setLastClassification rest

/-- One face-loop iteration applied to the loop state: skipped faces leave the
state unchanged; otherwise the output dict is appended, the count bumped when
a label was found, and the debug entry appended (after the stale
classification write to the previous entry, when it fired). -/
def regionStep (wf hf : ℕ) (st : LoopState) (fi : FaceInput) : LoopState :=
  match processFace wf hf fi with
  | none => st
  | some fs =>
    let dbg0 := if fs.usedCls then setLastClassification st.debug_entries else st.debug_entries
    { results_output := st.results_output ++ [fs.out],
      emotion_counts :=
        match fs.out.emotion with
        | some e => bumpCount st.emotion_counts e
        | none => st.emotion_counts,
      debug_entries := dbg0 ++ [DebugEntry.face fs.dbg] }

/-- The whole face loop (source lines 65-168). -/
def regionLoop (wf hf : ℕ) (fis : List FaceInput) : LoopState :=
  fis.foldl (regionStep wf hf) { results_output := [], emotion_counts := [], debug_entries := [] }

/-- One box of the direct full-frame call (source lines 178-203): skip on
extraction failure or out-of-range class, clamp the box (or the whole frame
when there is no `xyxy`) and emit a `"source": "direct"` detection. -/
def directPickBox (wf hf : ℕ) (b : DBox) : Option FaceOut :=
  match b.confCls with
  | none => none
  | some (conf, cls_id) =>
    match emotionOfIdx cls_id with
    | none => none
    | some e =>
      let q : ℚ × ℚ × ℚ × ℚ :=
        match b.xyxy with
        | some v => v
        | none => (0, 0, (wf : ℚ), (hf : ℚ))
      let x1d : ℤ := Int.floor (max 0 (min q.1 ((wf : ℚ) - 1)))
      let y1d : ℤ := Int.floor (max 0 (min q.2.1 ((hf : ℚ) - 1)))
      let x2d : ℤ := Int.floor (max 0 (min q.2.2.1 (wf : ℚ)))
      let y2d : ℤ := Int.floor (max 0 (min q.2.2.2 (hf : ℚ)))
      some
        { x1 := x1d, y1 := y1d, x2 := x2d, y2 := y2d,
          emotion := some e, confidence := round4 conf,
          color := bgr_to_rgb_hex (colors_bgr e), source := some "direct" }

/-- The `picked` list of the direct full-frame strategy: every result's boxes
in order (results with `boxes = None` are skipped), each box through
`directPickBox`. -/
def directPick (wf hf : ℕ) (drs : List YoloResult) : List FaceOut :=
  (drs.flatMap (fun r => r.boxes.getD [])).filterMap (directPickBox wf hf)

/-- The direct-strategy trigger (source line 170):
`(not results_output or all(emotion is None)) and EMOTION_MODE in ("direct", "hybrid")`. -/
def directCond (ro : List FaceOut) (mode : String) : Bool :=
  (ro.isEmpty || ro.all (fun r => r.emotion.isNone)) && (mode == "direct" || mode == "hybrid")

/-- Recomputation of `emotion_counts` from a results list (source lines 213-215). -/
def labelCountsOf (ro : List FaceOut) : List (Emotion × ℕ) :=
  ro.foldl
    (fun cs r =>
      match r.emotion with
      | some e => bumpCount cs e
      | none => cs)
    []

/-- Python's `max(items, key=...)`: keeps the current best, replacing it only
on a strictly larger key, so the first maximal element wins ties. -/
def pickDominantGo (best : Emotion × ℕ) : List (Emotion × ℕ) → Emotion × ℕ
  | [] => best
  | kv :: rest => pickDominantGo (if best.2 < kv.2 then kv else best) rest

/-- `max(emotion_counts.items(), key=lambda kv: kv[1])[0]` when the dict is
non-empty, `None` otherwise (source lines 216-219). -/
def pickDominant : List (Emotion × ℕ) → Option Emotion
  | [] => none
  | kv :: rest => some (pickDominantGo kv rest).1

/-- The environment of one `process_frame` call: decoded frame dimensions, the
configured mode string, the face proposer's output with the classifier
oracle's per-face answers (used only when the mode runs the cascade), and the
direct full-frame call's answer (`none` when that call raises). -/
structure PFEnv where
  w_frame : ℕ
  h_frame : ℕ
  mode : String
  proposed : List FaceInput
  directRes : Option (List YoloResult)
deriving DecidableEq, Repr

/-- The quadruple returned by `process_frame`. -/
structure PFOut where
  faces : List FaceOut
  dominant : Option Emotion
  width : ℕ
  height : ℕ
  debug : List DebugEntry
deriving DecidableEq, Repr

/-- Source lines 51-59: `faces` stays the empty initialiser unless the mode is
`cascade` or `hybrid`, in which case the proposer (detectMultiScale) is invoked. -/
def facesUsed (mode : String) (proposed : List FaceInput) : List FaceInput :=
  if mode == "cascade" || mode == "hybrid" then proposed else []

/-- The source's `process_frame` (lines 48-220): face loop, gated direct
full-frame strategy with full replacement, count recomputation, and the
dominant-emotion vote. -/
def process_frame (env : PFEnv) : PFOut :=
  let st := regionLoop env.w_frame env.h_frame (facesUsed env.mode env.proposed)
  let rodbg : List FaceOut × List DebugEntry :=
    if directCond st.results_output env.mode then
      match env.directRes with
      | none => (st.results_output, st.debug_entries ++ [DebugEntry.directError])
      | some drs =>
        let picked := directPick env.w_frame env.h_frame drs
        if picked.isEmpty then (st.results_output, st.debug_entries)
        else (picked, st.debug_entries ++ [DebugEntry.directDetections picked.length])
    else (st.results_output, st.debug_entries)
  let ro := rodbg.1
  let counts :=
    if !ro.isEmpty && st.emotion_counts.isEmpty then labelCountsOf ro else st.emotion_counts
  { faces := ro, dominant := pickDominant counts,
    width := env.w_frame, height := env.h_frame, debug := rodbg.2 }

/-! ## The request loop (`main_loop`, source lines 222-246) -/

/-- Outcome of `json.loads(line)`: raising, producing a non-dict value (on
which `.get` raises `AttributeError`), or producing a dict with the `id` and
`image` fields the code reads. -/
inductive ParseOutcome
  | fail
  | nonDict
  | dict (reqId : Option String) (image : Option String)
deriving DecidableEq, Repr

/-- One input line together with the external decoding/model outcomes for it:
whether `base64.b64decode` succeeds, what `cv2.imdecode` returns (`some`
dimensions or `None`), and the classifier/proposer oracles for the decoded
frame.  The data-URL comma split only changes which bytes reach the base64
decoder and is absorbed by `b64ok`; a truthy non-string `image` value (whose
`"," in image_data` raises a `TypeError` caught by the same handler) is also
absorbed by `b64ok = false`, since it yields the same error-response shape. -/
structure LineEnv where
  raw : String
  parse : ParseOutcome
  b64ok : Bool
  decoded : Option (ℕ × ℕ)
  proposed : List FaceInput
  directRes : Option (List YoloResult)
deriving DecidableEq, Repr

/-- The state of the local variable `payload` across loop iterations: unbound,
bound to a dict (with its `id`), or bound to a non-dict value. -/
inductive PayloadVar
  | absent
  | dictVal (reqId : Option String)
  | nonDictVal
deriving DecidableEq, Repr

/-- One output object.  Optional keys of the output dict are `Option`;
the error path emits `faces = []`, `dominantEmotion = None` and no
`frame`/`debug` keys. -/
structure Response where
  id : Option String
  faces : List FaceOut
  dominantEmotion : Option Emotion
  frame : Option (ℕ × ℕ)
  debug : Option (List DebugEntry)
  error : Option String
deriving DecidableEq, Repr

/-- The `except` handler (source line 244):
`{"id": payload.get("id") if 'payload' in locals() else None, "error": str(e), ...}`.
When `payload` is bound to a non-dict value, `payload.get` raises inside the
handler and the exception escapes `main_loop`: that is the `none` case. -/
def errResponse (pv : PayloadVar) (msg : String) : Option Response :=
  match pv with
  | .absent => some { id := none, faces := [], dominantEmotion := none, frame := none, debug := none, error := some msg }
  | .dictVal i => some { id := i, faces := [], dominantEmotion := none, frame := none, debug := none, error := some msg }
  | .nonDictVal => none

/-- Result of handling one line: skipped (blank line), one emitted response
with the updated `payload` binding, or a crash of the whole process. -/
inductive StepResult
  | skip
  | emit (r : Response) (pv : PayloadVar)
  | crash
deriving DecidableEq, Repr

/-- One iteration of the `for line in sys.stdin` loop (source lines 223-246). -/
def handleLine (mode : String) (pv : PayloadVar) (le : LineEnv) : StepResult :=
  if (pyStrip le.raw).isEmpty then .skip
  else
    match le.parse with
    | .fail =>
      -- json.loads raised; `payload` keeps its previous binding
      match errResponse pv "json decode error" with
      | some r => .emit r pv
      | none => .crash
    | .nonDict =>
      -- payload is bound, `payload.get("id")` raises, and the handler's own
      -- `payload.get("id")` raises again
      match errResponse .nonDictVal "AttributeError" with
      | some r => .emit r .nonDictVal
      | none => .crash
    | .dict i img =>
      let pv' := PayloadVar.dictVal i
      if img = none ∨ img = some "" then
        -- `if not image_data: raise ValueError("Missing image")`
        match errResponse pv' "Missing image" with
        | some r => .emit r pv'
        | none => .crash
      else if !le.b64ok then
        match errResponse pv' "base64 decode error" with
        | some r => .emit r pv'
        | none => .crash
      else
        match le.decoded with
        | none =>
          match errResponse pv' "Failed to decode image" with
          | some r => .emit r pv'
          | none => .crash
        | some (w, h) =>
          let pf := process_frame
            { w_frame := w, h_frame := h, mode := mode,
              proposed := le.proposed, directRes := le.directRes }
          .emit
            { id := i, faces := pf.faces, dominantEmotion := pf.dominant,
              frame := some (w, h), debug := some pf.debug, error := none }
            pv'

/-- The request loop: one response per handled line, stopping with no further
output when an exception escapes the handler (the process dies). -/
def main_loop (mode : String) : PayloadVar → List LineEnv → List Response
  | _, [] => []
  | pv, le :: rest =>
    match handleLine mode pv le with
    | .skip => main_loop mode pv rest
    | .emit r pv' => r :: main_loop mode pv' rest
    | .crash => []

/-! ## Spec-side definitions (used to state the claims, written from the
spec's words, to be compared with the code-side definitions above) -/

/-- Occurrence count of a label in a list of labels. -/
def countE (e : Emotion) : List Emotion → ℕ
  | [] => 0
  | a :: rest => (if a = e then 1 else 0) + countE e rest

/-- The distinct labels of a list in first-encountered order (`seen` carries
the labels already emitted). -/
def firstDedupAux (seen : List Emotion) : List Emotion → List Emotion
  | [] => []
  | e :: rest =>
    if e ∈ seen then firstDedupAux seen rest
    else e :: firstDedupAux (e :: seen) rest

/-- Spec-side aggregator (spec 4.5): count occurrences of each non-absent
label; the dominant label is the one with the highest count, ties broken by
the first-encountered label in iteration order; absent when no detection
carries a label. -/
def dominantSpec (ro : List FaceOut) : Option Emotion :=
  let labs := ro.filterMap (fun r => r.emotion)
  let ls := firstDedupAux [] labs
  let m := ls.foldr (fun e acc => max (countE e labs) acc) 0
  ls.find? (fun e => countE e labs == m)

/-- Label counts of a plain label list (the dict built by repeated
`emotion_counts.get(e, 0) + 1` updates). -/
def countsList (labs : List Emotion) : List (Emotion × ℕ) := labs.foldl bumpCount []

/-- Largest count value of an association list (0 when empty). -/
def maxVals (cs : List (Emotion × ℕ)) : ℕ := cs.foldr (fun kv m => max kv.2 m) 0

/-- First-match association lookup, defaulting to 0. -/
def lookupCount : List (Emotion × ℕ) → Emotion → ℕ
  | [], _ => 0
  | kv :: rest, e => if kv.1 = e then kv.2 else lookupCount rest e

/-- All boxes of a classifier answer, in scan order (results with
`boxes = None` contribute nothing). -/
def flatBoxes (rs : List YoloResult) : List DBox :=
  rs.flatMap (fun r => r.boxes.getD [])

/-- The confidence a box contributes (0 when extraction fails). -/
def boxConf (b : DBox) : ℚ :=
  match b.confCls with
  | some (q, _) => q
  | none => 0

/-- The label a box carries: its class index through the enumeration, absent
when extraction fails or the index is out of range. -/
def boxLabel (b : DBox) : Option Emotion :=
  match b.confCls with
  | some (_, k) => emotionOfIdx k
  | none => none

/-- A box whose extraction succeeds, with positive confidence and an in-range
class index (the classifier-interface well-formedness used by claim C3). -/
def goodBoxB (b : DBox) : Bool :=
  match b.confCls with
  | some (q, k) => decide (0 < q) && (emotionOfIdx k).isSome
  | none => false

/-- A classification-shaped answer that satisfies the classifier interface
contract: the top-1 index is present and in range and its confidence is
present and positive. -/
def goodProbsB (p : Option ProbsData) : Bool :=
  match p with
  | some (ProbsData.vals (some cid) (some conf)) =>
    decide (0 < conf) && (emotionOfIdx cid).isSome
  | _ => false

/-- A result satisfying the classifier interface contract on whichever shape
the scan dispatches it to: good boxes on the detection path (`boxes` present
and non-empty), a good `probs` answer on the classification path. -/
def wellShapedB (r : YoloResult) : Bool :=
  match r.boxes with
  | some bs => if bs.isEmpty then goodProbsB r.probs else bs.all goodBoxB
  | none => goodProbsB r.probs

/-- The candidate outputs the classification path offers the scan: one
`(top1conf, label)` pair when `top1` is present and in range (the code is a
no-op otherwise), with the source's 0.0 default for a missing `top1conf`. -/
def probsOutputs (p : Option ProbsData) : List (ℚ × Option Emotion) :=
  match p with
  | some (ProbsData.vals (some cid) top1conf) =>
    match emotionOfIdx cid with
    | some e => [(top1conf.getD 0, some e)]
    | none => []
  | _ => []

/-- The `(confidence, label)` outputs of one result, following the source's
boxes-else-probs dispatch (lines 82-113). -/
def resultOutputs (r : YoloResult) : List (ℚ × Option Emotion) :=
  match r.boxes with
  | some bs =>
    if bs.isEmpty then probsOutputs r.probs
    else bs.map (fun b => (boxConf b, boxLabel b))
  | none => probsOutputs r.probs

/-- All outputs of a classifier answer, in scan order, across both shapes. -/
def allOutputs (rs : List YoloResult) : List (ℚ × Option Emotion) :=
  rs.flatMap resultOutputs

/-- Largest output confidence of a list (0 when empty). -/
def maxOutConf (os : List (ℚ × Option Emotion)) : ℚ := os.foldr (fun o m => max o.1 m) 0

/-- Spec-side selection (spec 4.2 step 4): the label of the single
highest-confidence output across all outputs, the first on ties. -/
def firstMaxOutput (os : List (ℚ × Option Emotion)) : Option Emotion :=
  (os.find? (fun o => decide (maxOutConf os ≤ o.1))).bind (fun o => o.2)

/-- The best-update rule both scan paths implement on the
`(best_emotion, best_conf)` pair for a contract-satisfying output: on a
strictly larger confidence adopt the output's confidence and label. -/
def stepOut (t : Option Emotion × ℚ) (o : ℚ × Option Emotion) : Option Emotion × ℚ :=
  if t.2 < o.1 then (o.2, o.1) else t

/-- The `(best_emotion, best_conf)` pair of a scan state — the part of the
state the selection claim is about. -/
def bestPair (s : BestState) : Option Emotion × ℚ := (s.best_emotion, s.best_conf)

/-- The classifier-interface assumption for the direct call (spec 1: the
classifier returns bounding boxes): every localized box has `x1 ≤ x2` and
`y1 ≤ y2`. -/
def orderedDirectB (res : Option (List YoloResult)) : Bool :=
  match res with
  | none => true
  | some drs =>
    drs.all (fun r =>
      (r.boxes.getD []).all (fun b =>
        match b.xyxy with
        | none => true
        | some (a, b1, c, d) => decide (a ≤ c) && decide (b1 ≤ d)))

/-! ## Concrete inputs for counterexamples and witnesses -/

/-- Claim C1's failing input: a non-empty line whose JSON parses to a
non-dict value (for example the line `42`). -/
def c1badline : LineEnv :=
  { raw := "42", parse := .nonDict, b64ok := true, decoded := none,
    proposed := [], directRes := none }

/-- Claim C2's witness environment: no faces proposed, cascade mode. -/
def c2env : PFEnv :=
  { w_frame := 10, h_frame := 10, mode := "cascade", proposed := [], directRes := none }

/-- Claim C3's counterexample: a 0.9-confidence box with the out-of-range
class index 99 followed by a 0.5-confidence box labelled Anger (index 0). -/
def c3cex : List YoloResult :=
  [{ boxes := some
      [{ confCls := some (mkRat 9 10, 99), xyxy := none },
       { confCls := some (mkRat 1 2, 0), xyxy := none }],
     probs := none }]

/-- The labelled second box of `c3cex`. -/
def c3cexBox2 : DBox := { confCls := some (mkRat 1 2, 0), xyxy := none }

/-- Claim C3's witness input: a mixed, contract-satisfying answer — one
detection-shaped result (a 0.3-confidence Happy box) followed by one
classification-shaped result (top-1 Sad at confidence 0.7). -/
def c3wRs : List YoloResult :=
  [{ boxes := some [{ confCls := some (mkRat 3 10, 4), xyxy := none }],
     probs := none },
   { boxes := none,
     probs := some (ProbsData.vals (some 6) (some (mkRat 7 10))) }]

/-- Claim C4's counterexample face: the region scan finds no label but its
`best_conf` is 0.9 (raised by an out-of-range box), and the fallback returns
Happy at confidence 0.5 > 0, which the code does not adopt. -/
def c4cexFi : FaceInput :=
  { rect := (100, 100, 200, 200),
    regionRes := some [{ boxes := some [{ confCls := some (mkRat 9 10, 99), xyxy := none }], probs := none }],
    fallbackRes := some [{ boxes := some [{ confCls := some (mkRat 1 2, 4), xyxy := none }], probs := none }] }

/-- The fallback answer of `c4cexFi`. -/
def c4cexFrs : List YoloResult :=
  [{ boxes := some [{ confCls := some (mkRat 1 2, 4), xyxy := none }], probs := none }]

/-- Claim C4's witness face: the region call returns zero results, the
fallback finds Happy at confidence 0.5 and is adopted. -/
def c4wFi : FaceInput :=
  { rect := (100, 100, 200, 200),
    regionRes := some [],
    fallbackRes := some [{ boxes := some [{ confCls := some (mkRat 1 2, 4), xyxy := none }], probs := none }] }

/-- The fallback answer of `c4wFi`. -/
def c4wFrs : List YoloResult :=
  [{ boxes := some [{ confCls := some (mkRat 1 2, 4), xyxy := none }], probs := none }]

/-- Claim C5's counterexample environment: one large-enough face candidate
whose region classifier call raises. -/
def c5cexEnv : PFEnv :=
  { w_frame := 640, h_frame := 480, mode := "cascade",
    proposed := [{ rect := (100, 100, 200, 200), regionRes := none, fallbackRes := none }],
    directRes := none }

/-- Claim C5's witness faces: a good face before and after the failing one. -/
def c5wGood : FaceInput :=
  { rect := (100, 100, 200, 200),
    regionRes := some [{ boxes := some [{ confCls := some (mkRat 1 2, 4), xyxy := none }], probs := none }],
    fallbackRes := none }

/-- Claim C5's witness failing face. -/
def c5wBad : FaceInput :=
  { rect := (50, 50, 150, 150), regionRes := none, fallbackRes := none }

/-- Claim C6's witness environment: cascade mode, one face classified Happy
through the region path. -/
def c6env : PFEnv :=
  { w_frame := 640, h_frame := 480, mode := "cascade",
    proposed :=
      [{ rect := (150, 150, 220, 220),
         regionRes := some [{ boxes := some [{ confCls := some (mkRat 1 2, 4), xyxy := none }], probs := none }],
         fallbackRes := none }],
    directRes := none }

/-- Claim C7's witness environment: hybrid mode, no faces proposed, one
labelled direct box. -/
def c7env : PFEnv :=
  { w_frame := 640, h_frame := 480, mode := "hybrid", proposed := [],
    directRes := some
      [{ boxes := some [{ confCls := some (mkRat 1 2, 3), xyxy := some (1, 2, 3, 4) }],
         probs := none }] }

/-- The direct answer of `c7env`. -/
def c7drs : List YoloResult :=
  [{ boxes := some [{ confCls := some (mkRat 1 2, 3), xyxy := some (1, 2, 3, 4) }], probs := none }]

/-- Claim C8's witness environment: cascade mode, one face classified Happy. -/
def c8env : PFEnv :=
  { w_frame := 640, h_frame := 480, mode := "cascade",
    proposed :=
      [{ rect := (100, 100, 200, 200),
         regionRes := some [{ boxes := some [{ confCls := some (mkRat 1 2, 4), xyxy := none }], probs := none }],
         fallbackRes := none }],
    directRes := none }

/-- Claim C8's direct-mode witness environment. -/
def c8envD : PFEnv :=
  { w_frame := 640, h_frame := 480, mode := "direct", proposed := [], directRes := none }

/-- Claim C10's witness environment: one face whose region scan and fallback
both find nothing, producing an unlabelled detection. -/
def c10env : PFEnv :=
  { w_frame := 640, h_frame := 480, mode := "cascade",
    proposed :=
      [{ rect := (100, 100, 200, 200), regionRes := some [], fallbackRes := some [] }],
    directRes := none }

/-- The single detection produced by `c8env`. -/
def c8face : FaceOut :=
  { x1 := 80, y1 := 80, x2 := 320, y2 := 320, emotion := some .Happy,
    confidence := mkRat 1 2, color := "#00FF00", source := none }

/-- The single detection produced by `c6env`. -/
def c6face : FaceOut :=
  { x1 := 130, y1 := 130, x2 := 390, y2 := 390, emotion := some .Happy,
    confidence := mkRat 1 2, color := "#00FF00", source := none }

/-- The single (unlabelled) detection produced by `c10env`. -/
def c10face : FaceOut :=
  { x1 := 80, y1 := 80, x2 := 320, y2 := 320, emotion := none,
    confidence := 0, color := "#FFFFFF", source := none }

/-- The failing face of `c5cexEnv`: large enough, but its region classifier
call raises. -/
def c5cexFi : FaceInput :=
  { rect := (100, 100, 200, 200), regionRes := none, fallbackRes := none }

/-- The same environment as `c5cexEnv` except that the region classifier call
succeeds with zero results: this variant does append a diagnostics entry,
isolating the classifier failure as the cause of the missing diagnostics. -/
def c5cexEnvOk : PFEnv :=
  { w_frame := 640, h_frame := 480, mode := "cascade",
    proposed := [{ rect := (100, 100, 200, 200), regionRes := some [], fallbackRes := some [] }],
    directRes := none }

/-! ## Helper lemmas: the `emotion_counts` dict -/

theorem bumpCount_ne_nil (cs : List (Emotion × ℕ)) (e : Emotion) : bumpCount cs e ≠ [] := by
  cases cs with
  | nil => simp [bumpCount]
  | cons kv rest =>
    simp only [bumpCount]
    split <;> simp

theorem foldl_bumpCount_ne_nil (labs : List Emotion) (cs : List (Emotion × ℕ)) (h : cs ≠ []) :
    labs.foldl bumpCount cs ≠ [] := by
  induction labs generalizing cs with
  | nil => simpa using h
  | cons a rest ih =>
    simp only [List.foldl_cons]
    exact ih _ (bumpCount_ne_nil cs a)

theorem countsList_eq_nil_iff (labs : List Emotion) : countsList labs = [] ↔ labs = [] := by
  cases labs with
  | nil => simp [countsList]
  | cons a rest =>
    simp only [countsList, List.foldl_cons]
    constructor
    · intro h
      exact absurd h (foldl_bumpCount_ne_nil rest _ (bumpCount_ne_nil [] a))
    · intro h
      exact absurd h (by simp)

theorem lookupCount_bump (cs : List (Emotion × ℕ)) (a e : Emotion) :
    lookupCount (bumpCount cs a) e = lookupCount cs e + (if a = e then 1 else 0) := by
  induction cs with
  | nil =>
    simp only [bumpCount, lookupCount]
    by_cases h : a = e <;> simp [h]
  | cons kv rest ih =>
    simp only [bumpCount]
    by_cases hk : kv.1 = a
    · simp only [if_pos hk, lookupCount]
      split_ifs with h1 h2 h3
      · omega
      · exact absurd (hk.symm.trans h1) h2
      · exact absurd (hk.trans h3) h1
      · omega
    · simp only [if_neg hk, lookupCount]
      split_ifs with h1 h2 h3
      · exact absurd (h1.trans h2.symm) hk
      · omega
      · rw [ih, if_pos h3]
      · rw [ih, if_neg h3]

theorem lookupCount_foldl (labs : List Emotion) (cs : List (Emotion × ℕ)) (e : Emotion) :
    lookupCount (labs.foldl bumpCount cs) e = lookupCount cs e + countE e labs := by
  induction labs generalizing cs with
  | nil => simp [countE]
  | cons a rest ih =>
    simp only [List.foldl_cons, countE, ih, lookupCount_bump]
    by_cases h : a = e
    · simp [h]
      omega
    · simp [h]

theorem keys_bump (cs : List (Emotion × ℕ)) (a : Emotion) :
    (bumpCount cs a).map Prod.fst =
      if a ∈ cs.map Prod.fst then cs.map Prod.fst else cs.map Prod.fst ++ [a] := by
  induction cs with
  | nil => simp [bumpCount]
  | cons kv rest ih =>
    simp only [bumpCount]
    by_cases hk : kv.1 = a
    · subst hk
      simp
    · have hne : ¬ a = kv.1 := fun h => hk h.symm
      simp only [if_neg hk, List.map_cons, List.mem_cons, hne, false_or, ih]
      by_cases hm : a ∈ rest.map Prod.fst
      · simp [hm]
      · simp [hm]

theorem firstDedupAux_congr (l : List Emotion) (s1 s2 : List Emotion)
    (h : ∀ x, x ∈ s1 ↔ x ∈ s2) : firstDedupAux s1 l = firstDedupAux s2 l := by
  induction l generalizing s1 s2 with
  | nil => simp [firstDedupAux]
  | cons e rest ih =>
    simp only [firstDedupAux]
    by_cases he : e ∈ s1
    · rw [if_pos he, if_pos ((h e).mp he)]
      exact ih s1 s2 h
    · rw [if_neg he, if_neg (fun hx => he ((h e).mpr hx))]
      refine congrArg _ (ih _ _ ?_)
      intro x
      simp [h x]

theorem keys_foldl (labs : List Emotion) (cs : List (Emotion × ℕ)) :
    (labs.foldl bumpCount cs).map Prod.fst =
      cs.map Prod.fst ++ firstDedupAux (cs.map Prod.fst) labs := by
  induction labs generalizing cs with
  | nil => simp [firstDedupAux]
  | cons a rest ih =>
    simp only [List.foldl_cons, firstDedupAux, ih, keys_bump]
    by_cases hm : a ∈ cs.map Prod.fst
    · simp [hm]
    · rw [if_neg hm, if_neg hm]
      rw [List.append_assoc, List.singleton_append]
      refine congrArg _ (congrArg _ ?_)
      refine firstDedupAux_congr rest _ _ ?_
      intro x
      simp [or_comm]

theorem mem_of_mem_firstDedupAux (l : List Emotion) (seen : List Emotion) (a : Emotion)
    (h : a ∈ firstDedupAux seen l) : a ∈ l := by
  induction l generalizing seen with
  | nil => simp [firstDedupAux] at h
  | cons e rest ih =>
    simp only [firstDedupAux] at h
    by_cases he : e ∈ seen
    · rw [if_pos he] at h
      exact List.mem_cons_of_mem _ (ih seen h)
    · rw [if_neg he] at h
      rcases List.mem_cons.mp h with h | h
      · simp [h]
      · exact List.mem_cons_of_mem _ (ih _ h)

theorem not_mem_seen_of_mem_firstDedupAux (l : List Emotion) (seen : List Emotion) (a : Emotion)
    (h : a ∈ firstDedupAux seen l) : a ∉ seen := by
  induction l generalizing seen with
  | nil => simp [firstDedupAux] at h
  | cons e rest ih =>
    simp only [firstDedupAux] at h
    by_cases he : e ∈ seen
    · rw [if_pos he] at h
      exact ih seen h
    · rw [if_neg he] at h
      rcases List.mem_cons.mp h with h | h
      · subst h
        exact he
      · intro hs
        exact ih _ h (List.mem_cons_of_mem _ hs)

theorem firstDedupAux_nodup (l : List Emotion) (seen : List Emotion) :
    (firstDedupAux seen l).Nodup := by
  induction l generalizing seen with
  | nil => simp [firstDedupAux]
  | cons e rest ih =>
    simp only [firstDedupAux]
    by_cases he : e ∈ seen
    · rw [if_pos he]
      exact ih seen
    · rw [if_neg he]
      refine List.nodup_cons.mpr ⟨?_, ih _⟩
      intro hmem
      exact not_mem_seen_of_mem_firstDedupAux rest (e :: seen) e hmem (List.mem_cons_self e seen)

theorem lookupCount_of_nodup_mem (cs : List (Emotion × ℕ))
    (hnd : (cs.map Prod.fst).Nodup) (kv : Emotion × ℕ) (hm : kv ∈ cs) :
    lookupCount cs kv.1 = kv.2 := by
  induction cs with
  | nil => simp at hm
  | cons hd rest ih =>
    rw [List.map_cons, List.nodup_cons] at hnd
    rcases List.mem_cons.mp hm with h | h
    · subst h
      simp [lookupCount]
    · have hne : hd.1 ≠ kv.1 := by
        intro he
        refine hnd.1 ?_
        rw [he]
        exact List.mem_map.mpr ⟨kv, h, rfl⟩
      simp only [lookupCount, if_neg hne]
      exact ih hnd.2 h

theorem countsList_keys (labs : List Emotion) :
    (countsList labs).map Prod.fst = firstDedupAux [] labs := by
  simpa using keys_foldl labs []

theorem countsList_keys_nodup (labs : List Emotion) :
    ((countsList labs).map Prod.fst).Nodup := by
  rw [countsList_keys]
  exact firstDedupAux_nodup labs []

theorem countsList_val (labs : List Emotion) (kv : Emotion × ℕ) (hm : kv ∈ countsList labs) :
    kv.2 = countE kv.1 labs := by
  have h1 := lookupCount_of_nodup_mem (countsList labs) (countsList_keys_nodup labs) kv hm
  have h2 := lookupCount_foldl labs [] kv.1
  simp only [countsList] at h1
  simp only [lookupCount] at h2
  omega

theorem mem_labs_of_mem_countsList (labs : List Emotion) (kv : Emotion × ℕ)
    (hm : kv ∈ countsList labs) : kv.1 ∈ labs := by
  have : kv.1 ∈ (countsList labs).map Prod.fst := List.mem_map.mpr ⟨kv, hm, rfl⟩
  rw [countsList_keys] at this
  exact mem_of_mem_firstDedupAux labs [] kv.1 this

theorem labelCountsOf_eq_countsList (ro : List FaceOut) :
    labelCountsOf ro = countsList (ro.filterMap (fun r => r.emotion)) := by
  suffices h : ∀ (l : List FaceOut) (cs : List (Emotion × ℕ)),
      l.foldl
        (fun cs r =>
          match r.emotion with
          | some e => bumpCount cs e
          | none => cs) cs
        = (l.filterMap (fun r => r.emotion)).foldl bumpCount cs by
    simpa [labelCountsOf, countsList] using h ro []
  intro l
  induction l with
  | nil => simp
  | cons d rest ih =>
    intro cs
    cases hd : d.emotion <;> simp [List.filterMap_cons, hd, ih]

/-! ## Helper lemmas: Python `max(..., key=...)` -/

theorem maxVals_cons (kv : Emotion × ℕ) (cs : List (Emotion × ℕ)) :
    maxVals (kv :: cs) = max kv.2 (maxVals cs) := rfl

theorem find?_congr {α : Type} (l : List α) (p q : α → Bool)
    (h : ∀ a ∈ l, p a = q a) : l.find? p = l.find? q := by
  induction l with
  | nil => rfl
  | cons a rest ih =>
    have ha := h a (List.mem_cons_self a rest)
    by_cases hp : p a = true
    · have hq : q a = true := by rw [← ha]; exact hp
      rw [List.find?_cons_of_pos _ hp, List.find?_cons_of_pos _ hq]
    · have hq : ¬ q a = true := by rw [← ha]; exact hp
      rw [List.find?_cons_of_neg _ hp, List.find?_cons_of_neg _ hq]
      exact ih (fun x hx => h x (List.mem_cons_of_mem _ hx))

theorem val_le_maxVals (cs : List (Emotion × ℕ)) (kv : Emotion × ℕ) (h : kv ∈ cs) :
    kv.2 ≤ maxVals cs := by
  induction cs with
  | nil => simp at h
  | cons a rest ih =>
    rcases List.mem_cons.mp h with h | h
    · subst h
      rw [maxVals_cons]
      omega
    · have := ih h
      rw [maxVals_cons]
      omega

theorem pickDominantGo_mem (rest : List (Emotion × ℕ)) :
    ∀ kv, pickDominantGo kv rest ∈ kv :: rest := by
  induction rest with
  | nil =>
    intro kv
    simp [pickDominantGo]
  | cons a rest ih =>
    intro kv
    simp only [pickDominantGo]
    by_cases h : kv.2 < a.2
    · rw [if_pos h]
      rcases List.mem_cons.mp (ih a) with h2 | h2
      · rw [h2]
        exact List.mem_cons_of_mem _ (List.mem_cons_self a rest)
      · exact List.mem_cons_of_mem _ (List.mem_cons_of_mem _ h2)
    · rw [if_neg h]
      rcases List.mem_cons.mp (ih kv) with h2 | h2
      · rw [h2]
        exact List.mem_cons_self kv _
      · exact List.mem_cons_of_mem _ (List.mem_cons_of_mem _ h2)

theorem pickDominant_mem (cs : List (Emotion × ℕ)) (e : Emotion)
    (h : pickDominant cs = some e) : ∃ n, (e, n) ∈ cs := by
  cases cs with
  | nil => simp [pickDominant] at h
  | cons kv rest =>
    simp only [pickDominant, Option.some.injEq] at h
    refine ⟨(pickDominantGo kv rest).2, ?_⟩
    have hmem := pickDominantGo_mem rest kv
    rwa [← h]

theorem pickDominantGo_find (rest : List (Emotion × ℕ)) :
    ∀ kv : Emotion × ℕ,
      some (pickDominantGo kv rest) =
        (kv :: rest).find? (fun x => decide (maxVals (kv :: rest) ≤ x.2)) := by
  induction rest with
  | nil =>
    intro kv
    rw [List.find?_cons_of_pos]
    · rfl
    · simp [maxVals_cons, maxVals]
  | cons a rest ih =>
    intro kv
    simp only [pickDominantGo]
    by_cases hka : kv.2 < a.2
    · rw [if_pos hka]
      have hm : maxVals (kv :: a :: rest) = maxVals (a :: rest) := by
        simp only [maxVals_cons]
        omega
      rw [List.find?_cons_of_neg]
      · rw [hm]
        exact ih a
      · have h1 : maxVals (a :: rest) ≤ maxVals (kv :: a :: rest) := by
          simp only [maxVals_cons]
          omega
        have h2 : a.2 ≤ maxVals (a :: rest) := by
          rw [maxVals_cons]
          omega
        simp only [decide_eq_true_eq]
        omega
    · rw [if_neg hka]
      have hm : maxVals (kv :: a :: rest) = maxVals (kv :: rest) := by
        simp only [maxVals_cons]
        omega
      rw [hm, ih kv]
      by_cases hkv : maxVals (kv :: rest) ≤ kv.2
      · rw [List.find?_cons_of_pos _ (by simpa using hkv),
          List.find?_cons_of_pos _ (by simpa using hkv)]
      · rw [List.find?_cons_of_neg _ (by simpa using hkv),
          List.find?_cons_of_neg _ (by simpa using hkv),
          List.find?_cons_of_neg]
        have hk2 : kv.2 ≤ maxVals (kv :: rest) := by
          rw [maxVals_cons]
          omega
        simp only [decide_eq_true_eq]
        omega

theorem foldr_max_congr (labs : List Emotion) (cs : List (Emotion × ℕ))
    (h : ∀ kv ∈ cs, kv.2 = countE kv.1 labs) :
    cs.foldr (fun kv m => max kv.2 m) 0 = cs.foldr (fun kv acc => max (countE kv.1 labs) acc) 0 := by
  induction cs with
  | nil => rfl
  | cons kv rest ih =>
    simp only [List.foldr_cons]
    rw [h kv (List.mem_cons_self kv rest),
      ih (fun x hx => h x (List.mem_cons_of_mem _ hx))]

theorem maxVals_countsList (labs : List Emotion) :
    maxVals (countsList labs) =
      (firstDedupAux [] labs).foldr (fun e acc => max (countE e labs) acc) 0 := by
  rw [← countsList_keys, List.foldr_map]
  exact foldr_max_congr labs (countsList labs) (fun kv hkv => countsList_val labs kv hkv)

/-- The code's dominant-emotion computation on the counts dict agrees with the
spec-side majority vote on any results list. -/
theorem pickDominant_eq_dominantSpec (ro : List FaceOut) :
    pickDominant (labelCountsOf ro) = dominantSpec ro := by
  rw [labelCountsOf_eq_countsList]
  show pickDominant (countsList (ro.filterMap (fun r => r.emotion))) = _
  have hspec : dominantSpec ro =
      (firstDedupAux [] (ro.filterMap (fun r => r.emotion))).find?
        (fun e => countE e (ro.filterMap (fun r => r.emotion)) ==
          (firstDedupAux [] (ro.filterMap (fun r => r.emotion))).foldr
            (fun e acc => max (countE e (ro.filterMap (fun r => r.emotion))) acc) 0) := rfl
  rw [hspec]
  set labs := ro.filterMap (fun r => r.emotion) with hlabs
  by_cases hnil : labs = []
  · rw [hnil]
    rfl
  · have hcs : countsList labs ≠ [] := fun h => hnil ((countsList_eq_nil_iff labs).mp h)
    cases hcseq : countsList labs with
    | nil => exact absurd hcseq hcs
    | cons kv rest =>
      have hm : (firstDedupAux [] labs).foldr (fun e acc => max (countE e labs) acc) 0 =
          maxVals (kv :: rest) := by
        rw [← maxVals_countsList, hcseq]
      rw [hm, ← countsList_keys, hcseq, List.find?_map]
      have hcong :
          (kv :: rest).find?
              ((fun e => countE e labs == maxVals (kv :: rest)) ∘ Prod.fst) =
            (kv :: rest).find? (fun x => decide (maxVals (kv :: rest) ≤ x.2)) := by
        refine find?_congr _ _ _ ?_
        intro x hx
        have hval : x.2 = countE x.1 labs := by
          refine countsList_val labs x ?_
          rw [hcseq]
          exact hx
        have hle : x.2 ≤ maxVals (kv :: rest) := val_le_maxVals _ x hx
        simp only [Function.comp_apply, ← hval]
        by_cases hx2 : x.2 = maxVals (kv :: rest)
        · simp [hx2]
        · have hlt : ¬ (maxVals (kv :: rest) ≤ x.2) := by omega
          simp [hx2, hlt]
      rw [hcong, ← pickDominantGo_find rest kv]
      rfl

/-! ## Helper lemmas: the face loop and `process_frame` -/

theorem labelCountsOf_append (ro : List FaceOut) (d : FaceOut) :
    labelCountsOf (ro ++ [d]) =
      match d.emotion with
      | some e => bumpCount (labelCountsOf ro) e
      | none => labelCountsOf ro := by
  simp only [labelCountsOf, List.foldl_append, List.foldl_cons, List.foldl_nil]

theorem regionLoop_counts (wf hf : ℕ) (fis : List FaceInput) :
    (regionLoop wf hf fis).emotion_counts =
      labelCountsOf (regionLoop wf hf fis).results_output := by
  suffices h : ∀ (l : List FaceInput) (st : LoopState),
      st.emotion_counts = labelCountsOf st.results_output →
      (l.foldl (regionStep wf hf) st).emotion_counts =
        labelCountsOf (l.foldl (regionStep wf hf) st).results_output by
    exact h fis _ rfl
  intro l
  induction l with
  | nil =>
    intro st h
    exact h
  | cons fi rest ih =>
    intro st h
    simp only [List.foldl_cons]
    refine ih _ ?_
    simp only [regionStep]
    cases hpf : processFace wf hf fi with
    | none => exact h
    | some fs =>
      simp only [labelCountsOf_append, h]

theorem regionLoop_out_mem (wf hf : ℕ) (fis : List FaceInput) (d : FaceOut)
    (hd : d ∈ (regionLoop wf hf fis).results_output) :
    ∃ fi fs, fi ∈ fis ∧ processFace wf hf fi = some fs ∧ d = fs.out := by
  suffices h : ∀ (l : List FaceInput) (st : LoopState),
      d ∈ (l.foldl (regionStep wf hf) st).results_output →
      d ∈ st.results_output ∨ ∃ fi fs, fi ∈ l ∧ processFace wf hf fi = some fs ∧ d = fs.out by
    rcases h fis { results_output := [], emotion_counts := [], debug_entries := [] } hd with
      h2 | h2
    · simp at h2
    · exact h2
  intro l
  induction l with
  | nil =>
    intro st h
    exact Or.inl h
  | cons fi rest ih =>
    intro st h
    rcases ih (regionStep wf hf st fi) h with h2 | h2
    · simp only [regionStep] at h2
      cases hpf : processFace wf hf fi with
      | none =>
        rw [hpf] at h2
        exact Or.inl h2
      | some fs =>
        rw [hpf] at h2
        simp only [List.mem_append, List.mem_singleton] at h2
        rcases h2 with h3 | h3
        · exact Or.inl h3
        · exact Or.inr ⟨fi, fs, List.mem_cons_self fi rest, hpf, h3⟩
    · rcases h2 with ⟨fi2, fs2, hmem, hpf, hout⟩
      exact Or.inr ⟨fi2, fs2, List.mem_cons_of_mem _ hmem, hpf, hout⟩

/-- Shape facts about every non-skipped face-loop iteration: the detection has
no `source` key, its colour is white exactly when unlabelled, and its clamped
coordinates are ordered within the frame. -/
theorem processFace_some (wf hf : ℕ) (fi : FaceInput) (fs : FaceStep)
    (h : processFace wf hf fi = some fs) :
    fs.out.source = none ∧
    (fs.out.emotion = none → fs.out.color = "#FFFFFF") ∧
    0 ≤ fs.out.x1 ∧ fs.out.x1 ≤ fs.out.x2 ∧ fs.out.x2 ≤ (wf : ℤ) ∧
    0 ≤ fs.out.y1 ∧ fs.out.y1 ≤ fs.out.y2 ∧ fs.out.y2 ≤ (hf : ℤ) := by
  rcases hrect : fi.rect with ⟨x, y, w, h4⟩
  simp only [processFace, hrect] at h
  split at h
  · simp at h
  · rename_i hsize
    cases hrr : fi.regionRes with
    | none =>
      rw [hrr] at h
      simp at h
    | some results =>
      rw [hrr] at h
      simp only [Option.some.injEq] at h
      subst h
      refine ⟨rfl, ?_, ?_, ?_, ?_, ?_, ?_, ?_⟩
      · intro hbe
        dsimp only at hbe ⊢
        rw [hbe]
      all_goals dsimp only; omega

theorem processFace_none_of_regionRes_none (wf hf : ℕ) (fi : FaceInput)
    (h : fi.regionRes = none) : processFace wf hf fi = none := by
  rcases hrect : fi.rect with ⟨x, y, w, h4⟩
  simp only [processFace, hrect, h]
  split
  · rfl
  · rfl

theorem clamp_floor_bounds (n : ℕ) (a b : ℚ) (hab : a ≤ b) :
    0 ≤ Int.floor (max 0 (min a ((n : ℚ) - 1))) ∧
    Int.floor (max 0 (min a ((n : ℚ) - 1))) ≤ Int.floor (max 0 (min b (n : ℚ))) ∧
    Int.floor (max 0 (min b (n : ℚ))) ≤ (n : ℤ) := by
  refine ⟨?_, ?_, ?_⟩
  · exact Int.le_floor.mpr (by exact_mod_cast le_max_left 0 _)
  · refine Int.floor_le_floor ?_
    refine max_le_max le_rfl (min_le_min hab ?_)
    linarith
  · have h1 : max 0 (min b (n : ℚ)) ≤ (n : ℚ) := by
      refine max_le (by exact_mod_cast Nat.zero_le n) (min_le_right _ _)
    calc Int.floor (max 0 (min b (n : ℚ))) ≤ Int.floor ((n : ℚ)) := Int.floor_le_floor h1
      _ = (n : ℤ) := Int.floor_natCast n

/-- Bounds of every direct-strategy detection, under the classifier-interface
assumption that the raw box is ordered (`x1 ≤ x2`, `y1 ≤ y2`). -/
theorem directPickBox_bounds (wf hf : ℕ) (b : DBox) (d : FaceOut)
    (hord : match b.xyxy with
      | none => True
      | some p => p.1 ≤ p.2.2.1 ∧ p.2.1 ≤ p.2.2.2)
    (h : directPickBox wf hf b = some d) :
    0 ≤ d.x1 ∧ d.x1 ≤ d.x2 ∧ d.x2 ≤ (wf : ℤ) ∧
    0 ≤ d.y1 ∧ d.y1 ≤ d.y2 ∧ d.y2 ≤ (hf : ℤ) := by
  simp only [directPickBox] at h
  cases hc : b.confCls with
  | none =>
    rw [hc] at h
    simp at h
  | some p =>
    obtain ⟨conf, cls⟩ := p
    rw [hc] at h
    dsimp only at h
    cases he : emotionOfIdx cls with
    | none =>
      rw [he] at h
      simp at h
    | some e =>
      rw [he] at h
      dsimp only at h
      rw [Option.some_inj] at h
      subst h
      cases hxy : b.xyxy with
      | none =>
        rw [hxy] at hord
        dsimp only at hord ⊢
        obtain ⟨w1, w2, w3⟩ := clamp_floor_bounds wf 0 (wf : ℚ) (by exact_mod_cast Nat.zero_le wf)
        obtain ⟨v1, v2, v3⟩ := clamp_floor_bounds hf 0 (hf : ℚ) (by exact_mod_cast Nat.zero_le hf)
        exact ⟨w1, w2, w3, v1, v2, v3⟩
      | some q =>
        rw [hxy] at hord
        dsimp only at hord ⊢
        obtain ⟨w1, w2, w3⟩ := clamp_floor_bounds wf q.1 q.2.2.1 hord.1
        obtain ⟨v1, v2, v3⟩ := clamp_floor_bounds hf q.2.1 q.2.2.2 hord.2
        exact ⟨w1, w2, w3, v1, v2, v3⟩

theorem directCond_all_none (ro : List FaceOut) (mode : String)
    (h : directCond ro mode = true) : ∀ d ∈ ro, d.emotion = none := by
  simp only [directCond, Bool.and_eq_true, Bool.or_eq_true] at h
  rcases h.1 with h1 | h1
  · intro d hd
    rw [List.isEmpty_iff.mp h1] at hd
    simp at hd
  · intro d hd
    have := List.all_eq_true.mp h1 d hd
    exact Option.isNone_iff_eq_none.mp this

theorem labelCountsOf_eq_nil (ro : List FaceOut) (h : ∀ d ∈ ro, d.emotion = none) :
    labelCountsOf ro = [] := by
  rw [labelCountsOf_eq_countsList]
  have : ro.filterMap (fun r => r.emotion) = [] := List.filterMap_eq_nil_iff.mpr h
  rw [this]
  rfl

/-- The trigger of the direct strategy, in the spec's phrasing. -/
theorem directCond_iff (ro : List FaceOut) (mode : String) :
    directCond ro mode = true ↔
      ((mode = "direct" ∨ mode = "hybrid") ∧ (ro = [] ∨ ∀ d ∈ ro, d.emotion = none)) := by
  simp only [directCond, Bool.and_eq_true, Bool.or_eq_true, beq_iff_eq, List.isEmpty_iff,
    List.all_eq_true, Option.isNone_iff_eq_none]
  constructor
  · intro h
    exact ⟨h.2, h.1⟩
  · intro h
    exact ⟨h.2, h.1⟩

/-- What `process_frame` returns as `faces`: either the face loop's list, or
(when the direct strategy ran and picked something) the direct list. -/
theorem process_frame_faces (env : PFEnv) :
    (process_frame env).faces =
        (regionLoop env.w_frame env.h_frame (facesUsed env.mode env.proposed)).results_output ∨
      (∃ drs, env.directRes = some drs ∧
        directCond
          (regionLoop env.w_frame env.h_frame (facesUsed env.mode env.proposed)).results_output
          env.mode = true ∧
        (process_frame env).faces = directPick env.w_frame env.h_frame drs ∧
        directPick env.w_frame env.h_frame drs ≠ []) := by
  simp only [process_frame]
  by_cases hcond : directCond
      (regionLoop env.w_frame env.h_frame (facesUsed env.mode env.proposed)).results_output
      env.mode = true
  · rw [if_pos hcond]
    cases hdr : env.directRes with
    | none => exact Or.inl rfl
    | some drs =>
      dsimp only
      cases hp : (directPick env.w_frame env.h_frame drs).isEmpty with
      | true =>
        rw [if_pos rfl]
        exact Or.inl rfl
      | false =>
        rw [if_neg Bool.false_ne_true]
        refine Or.inr ⟨drs, rfl, hcond, rfl, ?_⟩
        intro hnil
        rw [hnil] at hp
        simp at hp
  · rw [if_neg hcond]
    exact Or.inl rfl

/-- The recomputation step never changes the vote: whenever the running counts
already equal the vote over `ro`, the selected counts equal it too. -/
theorem counts_select (ro : List FaceOut) (cs : List (Emotion × ℕ)) (h : cs = labelCountsOf ro) :
    (if !ro.isEmpty && cs.isEmpty then labelCountsOf ro else cs) = labelCountsOf ro := by
  split
  · rfl
  · exact h

/-- The dominant emotion is always the vote over the final `faces` list. -/
theorem process_frame_dominant (env : PFEnv) :
    (process_frame env).dominant = pickDominant (labelCountsOf (process_frame env).faces) := by
  have hst := regionLoop_counts env.w_frame env.h_frame (facesUsed env.mode env.proposed)
  simp only [process_frame]
  by_cases hcond : directCond
      (regionLoop env.w_frame env.h_frame (facesUsed env.mode env.proposed)).results_output
      env.mode = true
  · have hnilc :
        (regionLoop env.w_frame env.h_frame (facesUsed env.mode env.proposed)).emotion_counts
          = [] := by
      rw [hst]
      exact labelCountsOf_eq_nil _ (directCond_all_none _ _ hcond)
    rw [if_pos hcond]
    cases hdr : env.directRes with
    | none =>
      dsimp only
      rw [counts_select _ _ hst]
    | some drs =>
      dsimp only
      cases hp : (directPick env.w_frame env.h_frame drs).isEmpty with
      | true =>
        rw [if_pos rfl]
        dsimp only
        rw [counts_select _ _ hst]
      | false =>
        rw [if_neg Bool.false_ne_true]
        dsimp only
        rw [hp, hnilc]
        simp
  · rw [if_neg hcond]
    dsimp only
    rw [counts_select _ _ hst]

/-! ## Helper lemmas: the region scan under the classifier interface -/

theorem max_absorb (a b c : ℚ) (h : b ≤ a) : max a (max b c) = max a c := by
  rw [← max_assoc, max_eq_left h]

theorem goodBoxB_destruct (b : DBox) (hb : goodBoxB b = true) :
    ∃ q k e, b.confCls = some (q, k) ∧ 0 < q ∧ emotionOfIdx k = some e ∧
      boxConf b = q ∧ boxLabel b = some e := by
  cases hc : b.confCls with
  | none =>
    rw [goodBoxB, hc] at hb
    simp at hb
  | some p =>
    obtain ⟨q, k⟩ := p
    rw [goodBoxB, hc] at hb
    dsimp only at hb
    rw [Bool.and_eq_true, decide_eq_true_eq, Option.isSome_iff_exists] at hb
    obtain ⟨hq, e, he⟩ := hb
    refine ⟨q, k, e, ?_, hq, he, ?_, ?_⟩
    · rfl
    · simp [boxConf, hc]
    · simp [boxLabel, hc, he]

theorem goodProbsB_destruct (p : Option ProbsData) (hp : goodProbsB p = true) :
    ∃ cid conf e, p = some (ProbsData.vals (some cid) (some conf)) ∧
      0 < conf ∧ emotionOfIdx cid = some e := by
  cases p with
  | none => exact absurd hp (by simp [goodProbsB])
  | some pd =>
    cases pd with
    | fails => exact absurd hp (by simp [goodProbsB])
    | vals top1 top1conf =>
      cases top1 with
      | none => exact absurd hp (by simp [goodProbsB])
      | some cid =>
        cases top1conf with
        | none => exact absurd hp (by simp [goodProbsB])
        | some conf =>
          simp only [goodProbsB, Bool.and_eq_true, decide_eq_true_eq,
            Option.isSome_iff_exists] at hp
          obtain ⟨hq, e, he⟩ := hp
          exact ⟨cid, conf, e, rfl, hq, he⟩

theorem allOutputs_cons (r : YoloResult) (rest : List YoloResult) :
    allOutputs (r :: rest) = resultOutputs r ++ allOutputs rest := by
  simp [allOutputs]

theorem maxOutConf_cons (o : ℚ × Option Emotion) (os : List (ℚ × Option Emotion)) :
    maxOutConf (o :: os) = max o.1 (maxOutConf os) := rfl

theorem stepBox_sim (s : BestState) (b : DBox) (hb : goodBoxB b = true) :
    bestPair (stepBox s b) = stepOut (bestPair s) (boxConf b, boxLabel b) := by
  obtain ⟨q, k, e, hc, hq, he, hbc, hbl⟩ := goodBoxB_destruct b hb
  rw [hbc, hbl, stepBox, hc, stepOut]
  dsimp only [bestPair]
  by_cases hlt : s.best_conf < q
  · simp only [if_pos hlt]
    rw [he]
  · simp only [if_neg hlt]

theorem foldl_stepBox_sim (bs : List DBox) (hgood : bs.all goodBoxB = true) :
    ∀ (s : BestState),
      bestPair (bs.foldl stepBox s) =
        (bs.map (fun b => (boxConf b, boxLabel b))).foldl stepOut (bestPair s) := by
  induction bs with
  | nil =>
    intro s
    rfl
  | cons b bs ih =>
    intro s
    rw [List.all_cons, Bool.and_eq_true] at hgood
    rw [List.foldl_cons, List.map_cons, List.foldl_cons, ← stepBox_sim s b hgood.1]
    exact ih hgood.2 (stepBox s b)

theorem stepProbs_sim (s : BestState) (p : Option ProbsData) (hp : goodProbsB p = true) :
    bestPair (stepProbs s p) = (probsOutputs p).foldl stepOut (bestPair s) := by
  obtain ⟨cid, conf, e, hpe, hconf, he⟩ := goodProbsB_destruct p hp
  subst hpe
  rw [stepProbs, probsOutputs]
  dsimp only
  rw [he]
  dsimp only [Option.getD, List.foldl, bestPair, stepOut]
  by_cases hlt : s.best_conf < conf
  · simp [hlt]
  · simp [hlt]

theorem stepResult_sim (s : BestState) (r : YoloResult) (hr : wellShapedB r = true) :
    bestPair (stepResult s r) = (resultOutputs r).foldl stepOut (bestPair s) := by
  cases hb : r.boxes with
  | none =>
    rw [wellShapedB, hb] at hr
    rw [stepResult, hb, resultOutputs, hb]
    exact stepProbs_sim s r.probs hr
  | some bs =>
    rw [wellShapedB, hb] at hr
    dsimp only at hr
    rw [stepResult, hb, resultOutputs, hb]
    dsimp only
    cases hie : bs.isEmpty with
    | true =>
      rw [hie] at hr
      rw [if_pos rfl] at hr
      rw [if_pos rfl, if_pos rfl]
      exact stepProbs_sim s r.probs hr
    | false =>
      rw [hie] at hr
      rw [if_neg Bool.false_ne_true] at hr
      rw [if_neg Bool.false_ne_true, if_neg Bool.false_ne_true]
      exact foldl_stepBox_sim bs hr s

theorem classifyResults_sim (rs : List YoloResult) (H : rs.all wellShapedB = true) :
    ∀ (s : BestState),
      bestPair (rs.foldl stepResult s) = (allOutputs rs).foldl stepOut (bestPair s) := by
  induction rs with
  | nil =>
    intro s
    rfl
  | cons r rest ih =>
    intro s
    rw [List.all_cons, Bool.and_eq_true] at H
    rw [List.foldl_cons, allOutputs_cons, List.foldl_append, ← stepResult_sim s r H.1]
    exact ih H.2 (stepResult s r)

theorem probsOutputs_good (p : Option ProbsData) (hp : goodProbsB p = true) :
    ∀ o ∈ probsOutputs p, 0 < o.1 ∧ o.2.isSome = true := by
  obtain ⟨cid, conf, e, hpe, hconf, he⟩ := goodProbsB_destruct p hp
  subst hpe
  intro o ho
  simp only [probsOutputs, he, Option.getD_some, List.mem_singleton] at ho
  subst ho
  exact ⟨hconf, rfl⟩

theorem outputs_pos_some (rs : List YoloResult) (H : rs.all wellShapedB = true) :
    ∀ o ∈ allOutputs rs, 0 < o.1 ∧ o.2.isSome = true := by
  intro o ho
  rw [allOutputs, List.mem_flatMap] at ho
  obtain ⟨r, hr, hor⟩ := ho
  have hws := List.all_eq_true.mp H r hr
  cases hb : r.boxes with
  | none =>
    rw [wellShapedB, hb] at hws
    rw [resultOutputs, hb] at hor
    exact probsOutputs_good r.probs hws o hor
  | some bs =>
    rw [wellShapedB, hb] at hws
    dsimp only at hws
    rw [resultOutputs, hb] at hor
    dsimp only at hor
    cases hie : bs.isEmpty with
    | true =>
      rw [hie] at hws hor
      rw [if_pos rfl] at hws hor
      exact probsOutputs_good r.probs hws o hor
    | false =>
      rw [hie] at hws hor
      rw [if_neg Bool.false_ne_true] at hws hor
      rw [List.mem_map] at hor
      obtain ⟨b, hbmem, hbo⟩ := hor
      obtain ⟨q, k, e, hc, hq, he, hbc, hbl⟩ :=
        goodBoxB_destruct b (List.all_eq_true.mp hws b hbmem)
      subst hbo
      refine ⟨?_, ?_⟩
      · rw [hbc]
        exact hq
      · rw [hbl]
        rfl

theorem maxOutConf_attained (os : List (ℚ × Option Emotion)) :
    (∀ o ∈ os, 0 < o.1) → os ≠ [] →
      0 < maxOutConf os ∧ ∃ o ∈ os, o.1 = maxOutConf os := by
  induction os with
  | nil =>
    intro _ hne
    exact absurd rfl hne
  | cons o os ih =>
    intro hpos _
    by_cases hos : os = []
    · subst hos
      have h0 : maxOutConf [o] = o.1 := by
        rw [maxOutConf_cons, show maxOutConf ([] : List (ℚ × Option Emotion)) = 0 from rfl]
        exact max_eq_left (le_of_lt (hpos o (List.mem_cons_self o [])))
      rw [h0]
      exact ⟨hpos o (List.mem_cons_self o []), o, List.mem_cons_self o [], rfl⟩
    · obtain ⟨hposr, o', ho', heq⟩ := ih (fun x hx => hpos x (List.mem_cons_of_mem o hx)) hos
      rw [maxOutConf_cons]
      rcases le_total o.1 (maxOutConf os) with h1 | h1
      · rw [max_eq_right h1]
        exact ⟨hposr, o', List.mem_cons_of_mem _ ho', heq⟩
      · rw [max_eq_left h1]
        exact ⟨hpos o (List.mem_cons_self o os), o, List.mem_cons_self o os, rfl⟩

theorem foldl_stepOut_preserve (os : List (ℚ × Option Emotion)) :
    ∀ (t : Option Emotion × ℚ), maxOutConf os ≤ t.2 → os.foldl stepOut t = t := by
  induction os with
  | nil =>
    intro t _
    rfl
  | cons o os ih =>
    intro t hle
    rw [maxOutConf_cons] at hle
    have hot : o.1 ≤ t.2 := le_trans (le_max_left _ _) hle
    have hstep : stepOut t o = t := by
      rw [stepOut, if_neg (not_lt.mpr hot)]
    rw [List.foldl_cons, hstep]
    exact ih t (le_trans (le_max_right _ _) hle)

theorem foldl_stepOut_find (os : List (ℚ × Option Emotion)) :
    ∀ (t : Option Emotion × ℚ) (M : ℚ), 0 ≤ t.2 →
      M = max t.2 (maxOutConf os) → t.2 < M →
      (os.foldl stepOut t).1 =
        (os.find? (fun o => decide (M ≤ o.1))).bind (fun o => o.2) := by
  induction os with
  | nil =>
    intro t M ht hM hlt
    rw [maxOutConf] at hM
    dsimp only [List.foldr_nil] at hM
    rw [max_eq_left ht] at hM
    exact absurd hlt (by rw [hM]; exact lt_irrefl _)
  | cons o os ih =>
    intro t M ht hM hlt
    rw [maxOutConf_cons] at hM
    by_cases hto : t.2 < o.1
    · have hstep : stepOut t o = (o.2, o.1) := by
        rw [stepOut, if_pos hto]
      by_cases hoM : M ≤ o.1
      · rw [List.find?_cons_of_pos _ (by exact decide_eq_true hoM)]
        have hosle : maxOutConf os ≤ (stepOut t o).2 := by
          rw [hstep]
          have hMos : maxOutConf os ≤ M := by
            rw [hM]
            exact le_max_of_le_right (le_max_right _ _)
          exact le_trans hMos hoM
        rw [List.foldl_cons, foldl_stepOut_preserve os (stepOut t o) hosle, hstep,
          Option.some_bind]
      · have holtM : o.1 < M := lt_of_not_le hoM
        rw [List.find?_cons_of_neg _ (by simpa using hoM)]
        have hMos : M = maxOutConf os := by
          rcases max_cases t.2 (max o.1 (maxOutConf os)) with ⟨h1, _⟩ | ⟨h1, _⟩
          · exact absurd ((hM.trans h1) ▸ hlt) (lt_irrefl _)
          · rcases max_cases o.1 (maxOutConf os) with ⟨h2, _⟩ | ⟨h2, _⟩
            · exact absurd (le_of_eq ((hM.trans h1).trans h2)) hoM
            · exact (hM.trans h1).trans h2
        rw [List.foldl_cons]
        refine ih (stepOut t o) M ?_ ?_ ?_
        · rw [hstep]
          exact le_of_lt (lt_of_le_of_lt ht hto)
        · rw [hstep]
          dsimp only
          rw [max_eq_right (le_of_lt (hMos ▸ holtM))]
          exact hMos
        · rw [hstep]
          dsimp only
          exact hMos ▸ holtM
    · have hot : o.1 ≤ t.2 := le_of_not_lt hto
      have hstep : stepOut t o = t := by
        rw [stepOut, if_neg hto]
      rw [List.find?_cons_of_neg _ (by simpa using not_le.mpr (lt_of_le_of_lt hot hlt))]
      rw [max_absorb _ _ _ hot] at hM
      rw [List.foldl_cons, hstep]
      exact ih t M ht hM hlt

theorem directPickBox_emotion (wf hf : ℕ) (b : DBox) (d : FaceOut)
    (h : directPickBox wf hf b = some d) : ∃ e, d.emotion = some e := by
  simp only [directPickBox] at h
  cases hc : b.confCls with
  | none =>
    rw [hc] at h
    simp at h
  | some p =>
    obtain ⟨conf, cls⟩ := p
    rw [hc] at h
    dsimp only at h
    cases he : emotionOfIdx cls with
    | none =>
      rw [he] at h
      simp at h
    | some e =>
      rw [he] at h
      dsimp only at h
      rw [Option.some_inj] at h
      subst h
      exact ⟨e, rfl⟩

/-! ## Claim theorems -/

/-- Claim C1 (code bug): the claim says every non-empty input line yields
exactly one Response even on an uncaught failure, but on a non-empty line
whose JSON parses to a non-dict value (such as the line `42`) the except
handler itself evaluates `payload.get("id")` on that non-dict value, the
`AttributeError` escapes `main_loop`, and the process terminates with zero
responses for that line. -/
theorem c1_crash_on_non_dict_line :
    main_loop "cascade" PayloadVar.absent [c1badline] = [] ∧
    (pyStrip c1badline.raw).isEmpty = false := by
  decide

/-- Claim C2 (confirmed): whenever `dominantEmotion` is present, some
Detection in `faces` carries that label, and when `faces` is empty or all its
labels are absent the dominant is absent — including when the direct strategy
replaced the detection set. -/
theorem c2_dominant_consistency (env : PFEnv) :
    (∀ e, (process_frame env).dominant = some e →
        ∃ d ∈ (process_frame env).faces, d.emotion = some e) ∧
    (((process_frame env).faces = [] ∨ ∀ d ∈ (process_frame env).faces, d.emotion = none) →
      (process_frame env).dominant = none) := by
  constructor
  · intro e hd
    rw [process_frame_dominant] at hd
    obtain ⟨n, hmem⟩ := pickDominant_mem _ _ hd
    rw [labelCountsOf_eq_countsList] at hmem
    have hlab := mem_labs_of_mem_countsList _ _ hmem
    rw [List.mem_filterMap] at hlab
    obtain ⟨d, hd2, hd3⟩ := hlab
    exact ⟨d, hd2, hd3⟩
  · intro h
    rw [process_frame_dominant]
    have hnil : labelCountsOf (process_frame env).faces = [] := by
      rcases h with h | h
      · rw [h]
        rfl
      · exact labelCountsOf_eq_nil _ h
    rw [hnil]
    rfl

/-- Claim C2 witness: a frame with no detections has an absent dominant. -/
theorem c2_witness : (process_frame c2env).dominant = none :=
  (c2_dominant_consistency c2env).2 (Or.inl (by decide))

/-- Claim C3 counterexample: a region whose classifier returns a 0.9-confidence
out-of-range box followed by a 0.5-confidence box labelled Anger yields no
label at all, although there were two outputs and a labelled one among them:
the out-of-range box raised `best_conf` without setting a label, masking the
labelled box.  This refutes both "the label of the single highest-confidence
labelled output" and "absent only when there were literally zero outputs". -/
theorem c3_counterexample :
    (classifyResults c3cex).best_emotion = none ∧
    (classifyResults c3cex).roi_box_count = 2 ∧
    c3cexBox2 ∈ flatBoxes c3cex ∧
    boxLabel c3cexBox2 = some Emotion.Anger ∧
    0 < boxConf c3cexBox2 := by
  decide

/-- Claim C3 (amended): when every classifier result for the region satisfies
the classifier interface contract on its shape — each detection-shaped box
parses with positive confidence and an in-range class index, and each
classification-shaped answer carries a present, in-range top-1 index with
positive confidence — Region Classification returns the label of the first
highest-confidence output across all outputs of either shape, in scan order,
and the label is absent exactly when there were zero outputs.  Without the
in-range restriction an out-of-range output can raise the running best
confidence and suppress labelled outputs. -/
theorem c3_amended (rs : List YoloResult) (H : rs.all wellShapedB = true) :
    (classifyResults rs).best_emotion = firstMaxOutput (allOutputs rs) ∧
    ((classifyResults rs).best_emotion = none ↔ allOutputs rs = []) := by
  have hemo : (classifyResults rs).best_emotion =
      ((allOutputs rs).foldl stepOut (none, 0)).1 :=
    congrArg Prod.fst (classifyResults_sim rs H initBest)
  by_cases hoe : allOutputs rs = []
  · rw [hoe] at hemo ⊢
    have hnone : (classifyResults rs).best_emotion = none := hemo
    rw [hnone]
    exact ⟨rfl, fun _ => rfl, fun _ => rfl⟩
  · have hpos : ∀ o ∈ allOutputs rs, 0 < o.1 :=
      fun o ho => (outputs_pos_some rs H o ho).1
    obtain ⟨hMpos, o0, ho0, heq⟩ := maxOutConf_attained (allOutputs rs) hpos hoe
    have hfind := foldl_stepOut_find (allOutputs rs) (none, 0) (maxOutConf (allOutputs rs))
      le_rfl (max_eq_right (le_of_lt hMpos)).symm hMpos
    have hemo2 : (classifyResults rs).best_emotion = firstMaxOutput (allOutputs rs) :=
      hemo.trans hfind
    refine ⟨hemo2, ?_, fun h => absurd h hoe⟩
    intro hnone
    rw [hemo2] at hnone
    cases hfd : (allOutputs rs).find? (fun o => decide (maxOutConf (allOutputs rs) ≤ o.1)) with
    | none =>
      rw [List.find?_eq_none] at hfd
      exact absurd (decide_eq_true (le_of_eq heq.symm)) (hfd o0 ho0)
    | some o1 =>
      have hmem := List.mem_of_find?_eq_some hfd
      obtain ⟨e, he1⟩ := Option.isSome_iff_exists.mp (outputs_pos_some rs H o1 hmem).2
      simp only [firstMaxOutput, hfd, Option.some_bind] at hnone
      rw [he1] at hnone
      exact Option.noConfusion hnone

/-- Claim C3 witness: on a contract-satisfying mixed answer — a 0.3-confidence
Happy box followed by a classification-shaped top-1 Sad at 0.7 — the scan
returns the first-highest output's label and the absence criterion holds. -/
theorem c3_amended_witness :
    (classifyResults c3wRs).best_emotion = firstMaxOutput (allOutputs c3wRs) ∧
    ((classifyResults c3wRs).best_emotion = none ↔ allOutputs c3wRs = []) :=
  c3_amended c3wRs (by decide)

/-- Claim C4 counterexample: the region scan of `c4cexFi` finds no label but
its `best_conf` is 0.9 (raised by an out-of-range box); the fallback produces
Happy at confidence 0.5 > 0, so the claim ("adopt iff the fallback confidence
strictly exceeds 0") demands adoption, yet the code compares against 0.9 and
does not adopt: the detection stays unlabelled and unflagged. -/
theorem c4_counterexample :
    (processFace 640 480 c4cexFi).map (fun fs => (fs.out.emotion, fs.dbg.fallbackUsed)) =
      some (none, false) ∧
    (fallbackScan c4cexFrs).best_emotion = some Emotion.Happy ∧
    0 < (fallbackScan c4cexFrs).best_conf := by
  decide

/-- Claim C4 (amended): for a face whose region scan finds no label, the
fallback result is adopted iff it is labelled and its confidence strictly
exceeds the region scan's `best_conf` — which can be positive even though no
label was found (raised by out-of-range outputs), so the threshold is not 0 in
general; adoption is recorded in the face's diagnostics entry (`fallbackUsed`),
while the emitted Detection carries no source marker. -/
theorem c4_amended (wf hf : ℕ) (fi : FaceInput) (rr frs : List YoloResult)
    (hrr : fi.regionRes = some rr) (hfrs : fi.fallbackRes = some frs)
    (hnone : (classifyResults rr).best_emotion = none)
    (hsome : (processFace wf hf fi).isSome = true) :
    ((processFace wf hf fi).map (fun fs => fs.dbg.fallbackUsed) = some true ↔
      ((fallbackScan frs).best_emotion.isSome ∧
        (classifyResults rr).best_conf < (fallbackScan frs).best_conf)) ∧
    ((processFace wf hf fi).map (fun fs => fs.dbg.fallbackUsed) = some true →
      (processFace wf hf fi).map (fun fs => fs.out.emotion) =
        some (fallbackScan frs).best_emotion) ∧
    ((processFace wf hf fi).map (fun fs => fs.dbg.fallbackUsed) = some false →
      (processFace wf hf fi).map (fun fs => fs.out.emotion) = some none) ∧
    (processFace wf hf fi).map (fun fs => fs.out.source) = some none := by
  cases hpf : processFace wf hf fi with
  | none =>
    rw [hpf] at hsome
    simp at hsome
  | some fs =>
    simp only [Option.map_some', Option.some.injEq]
    rcases hrect : fi.rect with ⟨x, y, w, h4⟩
    simp only [processFace, hrect] at hpf
    split at hpf
    · simp at hpf
    · rw [hrr] at hpf
      dsimp only at hpf
      rw [Option.some_inj] at hpf
      subst hpf
      have hfb : fallbackApply (classifyResults rr) fi.fallbackRes =
          fallbackApply (classifyResults rr) (some frs) := by rw [hfrs]
      rw [fallbackApply, hnone] at hfb
      dsimp only at hfb
      by_cases hcond : (fallbackScan frs).best_emotion.isSome ∧
          (classifyResults rr).best_conf < (fallbackScan frs).best_conf
      · rw [if_pos hcond] at hfb
        dsimp only
        rw [hfb]
        refine ⟨⟨fun _ => hcond, fun _ => rfl⟩, fun _ => rfl, ?_, rfl⟩
        intro hx
        exact absurd hx (by simp)
      · rw [if_neg hcond] at hfb
        dsimp only
        rw [hfb]
        refine ⟨⟨?_, fun hc => absurd hc hcond⟩, ?_, fun _ => rfl, rfl⟩
        · intro hx
          exact absurd hx (by simp)
        · intro hx
          exact absurd hx (by simp)

/-- Claim C4 witness: a region scan with zero outputs (`best_conf = 0`) whose
fallback finds Happy at 0.5 adopts it and flags `fallbackUsed`. -/
theorem c4_amended_witness :
    ((processFace 640 480 c4wFi).map (fun fs => fs.dbg.fallbackUsed) = some true ↔
      ((fallbackScan c4wFrs).best_emotion.isSome ∧
        (classifyResults []).best_conf < (fallbackScan c4wFrs).best_conf)) ∧
    ((processFace 640 480 c4wFi).map (fun fs => fs.dbg.fallbackUsed) = some true →
      (processFace 640 480 c4wFi).map (fun fs => fs.out.emotion) =
        some (fallbackScan c4wFrs).best_emotion) ∧
    ((processFace 640 480 c4wFi).map (fun fs => fs.dbg.fallbackUsed) = some false →
      (processFace 640 480 c4wFi).map (fun fs => fs.out.emotion) = some none) ∧
    (processFace 640 480 c4wFi).map (fun fs => fs.out.source) = some none :=
  c4_amended 640 480 c4wFi [] c4wFrs rfl rfl rfl (by decide)

/-- Claim C5 counterexample: one large-enough face whose region classifier
call raises produces an empty diagnostics sequence — the failure is silently
dropped, refuting "the failure is recorded in the diagnostics sequence"; the
variant whose call succeeds shows the face otherwise produces an entry. -/
theorem c5_counterexample :
    c5cexEnv.proposed = [c5cexFi] ∧
    c5cexFi.regionRes = none ∧
    (process_frame c5cexEnv).debug = [] ∧
    (process_frame c5cexEnv).faces = [] ∧
    (process_frame c5cexEnvOk).debug.length = 1 := by
  decide

/-- Claim C5 (amended): when a region's classifier call raises, the request is
not aborted and the remaining faces are processed exactly as if the failed
face had never been proposed — it contributes no Detection and no diagnostics
entry; region-level classifier failures are silently dropped from diagnostics
(only fallback and direct failures are recorded). -/
theorem c5_amended (wf hf : ℕ) (pre post : List FaceInput) (fi : FaceInput)
    (h : fi.regionRes = none) :
    regionLoop wf hf (pre ++ fi :: post) = regionLoop wf hf (pre ++ post) := by
  have hstep : ∀ st : LoopState, regionStep wf hf st fi = st := by
    intro st
    rw [regionStep, processFace_none_of_regionRes_none wf hf fi h]
  simp only [regionLoop, List.foldl_append, List.foldl_cons, hstep]

/-- Claim C5 witness: dropping the failing face between two good ones leaves
the loop state unchanged. -/
theorem c5_amended_witness :
    regionLoop 640 480 ([c5wGood] ++ c5wBad :: [c5wGood]) =
      regionLoop 640 480 ([c5wGood] ++ [c5wGood]) :=
  c5_amended 640 480 [c5wGood] [c5wGood] c5wBad rfl

/-- Claim C6 (confirmed): under the classifier-interface assumption that raw
direct boxes are ordered, every Detection of every response satisfies
`0 ≤ x1 ≤ x2 ≤ width` and `0 ≤ y1 ≤ y2 ≤ height`. -/
theorem c6_bounds (env : PFEnv) (hord : orderedDirectB env.directRes = true) :
    ∀ d, d ∈ (process_frame env).faces →
      0 ≤ d.x1 ∧ d.x1 ≤ d.x2 ∧ d.x2 ≤ (env.w_frame : ℤ) ∧
      0 ≤ d.y1 ∧ d.y1 ≤ d.y2 ∧ d.y2 ≤ (env.h_frame : ℤ) := by
  intro d hd
  rcases process_frame_faces env with hcase | ⟨drs, hdr, _, hfaces, _⟩
  · rw [hcase] at hd
    obtain ⟨fi, fs, _, hpf, hout⟩ := regionLoop_out_mem _ _ _ d hd
    obtain ⟨_, _, b1, b2, b3, b4, b5, b6⟩ := processFace_some _ _ _ _ hpf
    subst hout
    exact ⟨b1, b2, b3, b4, b5, b6⟩
  · rw [hfaces] at hd
    rw [directPick, List.mem_filterMap] at hd
    obtain ⟨b, hbmem, hpick⟩ := hd
    refine directPickBox_bounds env.w_frame env.h_frame b d ?_ hpick
    rw [hdr] at hord
    simp only [orderedDirectB] at hord
    rw [List.mem_flatMap] at hbmem
    obtain ⟨r, hr, hbr⟩ := hbmem
    have h1 := List.all_eq_true.mp hord r hr
    have h2 := List.all_eq_true.mp h1 b hbr
    cases hxy : b.xyxy with
    | none => trivial
    | some p =>
      obtain ⟨pa, pb, pc, pd⟩ := p
      rw [hxy] at h2
      dsimp only at h2 ⊢
      rw [Bool.and_eq_true, decide_eq_true_eq, decide_eq_true_eq] at h2
      exact h2

/-- Claim C6 witness: the direct detection of `c6env` lies inside the frame. -/
theorem c6_witness :
    0 ≤ c6face.x1 ∧ c6face.x1 ≤ c6face.x2 ∧ c6face.x2 ≤ (c6env.w_frame : ℤ) ∧
    0 ≤ c6face.y1 ∧ c6face.y1 ≤ c6face.y2 ∧ c6face.y2 ≤ (c6env.h_frame : ℤ) :=
  c6_bounds c6env (by decide) c6face (by decide)

/-- Claim C7 (confirmed): the direct strategy's trigger is exactly "mode
permits it and (no accumulated detections or all of them unlabelled)", and
when it runs and picks at least one detection, its picks fully replace the
accumulated set. -/
theorem c7_direct_gating_and_replacement :
    (∀ (ro : List FaceOut) (mode : String),
        directCond ro mode = true ↔
          ((mode = "direct" ∨ mode = "hybrid") ∧
            (ro = [] ∨ ∀ d ∈ ro, d.emotion = none))) ∧
    (∀ (env : PFEnv) (drs : List YoloResult),
        env.directRes = some drs →
        directCond (regionLoop env.w_frame env.h_frame
            (facesUsed env.mode env.proposed)).results_output env.mode = true →
        directPick env.w_frame env.h_frame drs ≠ [] →
        (process_frame env).faces = directPick env.w_frame env.h_frame drs) := by
  constructor
  · exact directCond_iff
  · intro env drs hdr hcond hne
    simp only [process_frame]
    rw [if_pos hcond, hdr]
    dsimp only
    cases hp : (directPick env.w_frame env.h_frame drs).isEmpty with
    | true => exact absurd (List.isEmpty_iff.mp hp) hne
    | false =>
      rw [if_neg Bool.false_ne_true]

/-- Claim C7 witness: with no faces proposed in hybrid mode, the direct pick
replaces the (empty) accumulated set. -/
theorem c7_witness : (process_frame c7env).faces = directPick 640 480 c7drs :=
  c7_direct_gating_and_replacement.2 c7env c7drs rfl (by decide) (by decide)

/-- Claim C8 (confirmed): in cascade mode no emitted Detection carries the
direct source marker, and in direct mode the response does not depend on the
region proposer's output at all (it is never consulted). -/
theorem c8_mode_gating :
    (∀ env : PFEnv, env.mode = "cascade" →
        ∀ d ∈ (process_frame env).faces, d.source ≠ some "direct") ∧
    (∀ (env : PFEnv) (p : List FaceInput), env.mode = "direct" →
        process_frame { env with proposed := p } = process_frame env) := by
  constructor
  · intro env hmode d hd
    have hcf : directCond (regionLoop env.w_frame env.h_frame
        (facesUsed env.mode env.proposed)).results_output env.mode = false := by
      rw [hmode, directCond]
      simp
    have hfaces : (process_frame env).faces =
        (regionLoop env.w_frame env.h_frame (facesUsed env.mode env.proposed)).results_output := by
      simp only [process_frame]
      rw [if_neg (by rw [hcf]; exact Bool.false_ne_true)]
    rw [hfaces] at hd
    obtain ⟨fi, fs, _, hpf, hout⟩ := regionLoop_out_mem _ _ _ d hd
    obtain ⟨hsrc, _⟩ := processFace_some _ _ _ _ hpf
    rw [hout, hsrc]
    simp
  · intro env p hmode
    have key : facesUsed env.mode p = facesUsed env.mode env.proposed := by
      rw [hmode]
      rfl
    simp only [process_frame]
    rw [key]

/-- Claim C8 witness: the cascade-mode detection of `c8env` has no direct
marker, and a direct-mode response ignores the proposer output. -/
theorem c8_witness :
    c8face.source ≠ some "direct" ∧
    process_frame { c8envD with proposed := [c5wGood] } = process_frame c8envD :=
  ⟨c8_mode_gating.1 c8env rfl c8face (by decide),
   c8_mode_gating.2 c8envD [c5wGood] rfl⟩

/-- Claim C9 (confirmed): the dominant emotion equals the spec-side majority
vote on the final detection list — highest occurrence count among labelled
detections, ties broken by the first-encountered label, absent when no
detection carries a label. -/
theorem c9_dominant_vote (env : PFEnv) :
    (process_frame env).dominant = dominantSpec (process_frame env).faces := by
  rw [process_frame_dominant, pickDominant_eq_dominantSpec]

/-- Claim C10 (confirmed): every unlabelled Detection is emitted with colour
`#FFFFFF`, which is exactly the colour of the Neutral label. -/
theorem c10_unlabelled_color :
    (∀ (env : PFEnv) (d : FaceOut), d ∈ (process_frame env).faces → d.emotion = none →
        d.color = "#FFFFFF") ∧
    bgr_to_rgb_hex (colors_bgr Emotion.Neutral) = "#FFFFFF" := by
  constructor
  · intro env d hd hemo
    rcases process_frame_faces env with hcase | ⟨drs, _, _, hfaces, _⟩
    · rw [hcase] at hd
      obtain ⟨fi, fs, _, hpf, hout⟩ := regionLoop_out_mem _ _ _ d hd
      obtain ⟨_, hcolor, _⟩ := processFace_some _ _ _ _ hpf
      subst hout
      exact hcolor hemo
    · rw [hfaces, directPick, List.mem_filterMap] at hd
      obtain ⟨b, _, hpick⟩ := hd
      obtain ⟨e, he⟩ := directPickBox_emotion _ _ _ _ hpick
      rw [he] at hemo
      exact Option.noConfusion hemo
  · decide

/-- Claim C10 witness: the unlabelled detection of `c10env` is white. -/
theorem c10_witness : c10face.color = "#FFFFFF" :=
  c10_unlabelled_color.1 c10env c10face (by decide) rfl

end EmotionService
